import Mathlib

/-!
Verification of the GitLab AI reviewer pipeline
(`src/code/src/helpers/gitlabreviewhelper.py`).

The Python source is shallowly embedded below.  External collaborators
(the tiktoken tokenizer, the OpenAI chat endpoint, Python's `json.loads`
and the GitLab client) are modelled as explicit function parameters; a
Python exception escaping a modelled function is represented by an
`Option`-valued result being `none`.
-/

namespace GitlabReviewer

/-- Dataclass `ParsedLine`: a single line within a diff.  Line numbers are
natural numbers (Python non-negative ints produced by the parser); `type`
is the literal Python tag string (`"none"`, `"old"`, `"new"`, ...). -/
structure ParsedLine where
  content : String
  old_line : Option Nat
  new_line : Option Nat
  type : String
  deriving DecidableEq

/-- Dataclass `Diff`: a file difference in a merge request. -/
structure Diff where
  oldpath : String
  newpath : String
  parsed_lines : List ParsedLine
  deriving DecidableEq

/-- A chat message (the dicts with `role` and `content` built in
`get_review`). -/
structure Message where
  role : String
  content : String
  deriving DecidableEq

/-- Longest prefix of decimal digits of a character list, together with
the rest.  Mirrors what a maximal-munch `\d+` consumes. -/
def spanDigits : List Char → List Char × List Char
  | [] => ([], [])
  | c :: cs =>
    if c.isDigit then
      let p := spanDigits cs
      (c :: p.1, p.2)
    else ([], c :: cs)

/-- Decimal value of a digit list (the `int(...)` applied to a regex
group). -/
def digitsVal (ds : List Char) : Nat :=
  ds.foldl (fun a c => 10 * a + (c.toNat - 48)) 0

/-- Checks that the remaining input continues with the closing literal
of the hunk-header regex: a space and two at-signs. -/
def expectAtAt : List Char → Bool
  | a :: b :: c :: _ => a == ' ' && b == '@' && c == '@'
  | _ => false

/-- Tail of the hunk-header regex after the new-start digits: the
optional group of a comma and digits, then the closing literal. -/
def hunkTail (r : List Char) : Bool :=
  match r with
  | c :: rest =>
    if c = ',' then
      let p := spanDigits rest
      if p.1 = [] then false else expectAtAt p.2
    else expectAtAt r
  | [] => false

/-- The hunk-header regex of `parse_diff_block`, as a prefix matcher on
character lists.  The Python pattern is
`@@ -(\d+),\d+ \+(\d+)(?:,\d+)? @@` applied with `re.match`, so the old
count is mandatory, the new count is optional, and trailing characters
are allowed.  Returns the two captured groups (old start, new start). -/
def matchHunkHeaderL (cs : List Char) : Option (Nat × Nat) :=
  match cs with
  | a :: b :: c :: d :: r1 =>
    if a = '@' ∧ b = '@' ∧ c = ' ' ∧ d = '-' then
      let p1 := spanDigits r1
      if p1.1 = [] then none
      else
        match p1.2 with
        | e :: r3 =>
          if e = ',' then
            let p2 := spanDigits r3
            if p2.1 = [] then none
            else
              match p2.2 with
              | f :: g :: r5 =>
                if f = ' ' ∧ g = '+' then
                  let p3 := spanDigits r5
                  if p3.1 = [] then none
                  else if hunkTail p3.2 then some (digitsVal p1.1, digitsVal p3.1)
                  else none
                else none
              | _ => none
          else none
        | [] => none
    else none
  | _ => none

/-- Python `str.splitlines` restricted to newline terminators (the only
terminator occurring in GitLab diff blocks): a trailing terminator does
not produce a final empty line. -/
def splitlinesAux : List Char → List Char → List String
  | [], acc => if acc = [] then [] else [String.mk acc.reverse]
  | c :: cs, acc =>
    if c = '\n' then String.mk acc.reverse :: splitlinesAux cs []
    else splitlinesAux cs (c :: acc)

/-- Splits a diff block into its lines, as `diff_block.splitlines()`. -/
def splitlines (s : String) : List String :=
  splitlinesAux s.data []

/-- Scanning loop of `parse_diff_block` over the remaining lines,
carrying the two optional counters `old_line` and `new_line` (both
`None` until a hunk header has been seen).  A result of `none` models
the Python `TypeError` raised by `old_line += 1` / `new_line += 1` when
the corresponding counter is still `None`. -/
def parseDiffLines : List String → Option Nat → Option Nat → Option (List ParsedLine)
  | [], _, _ => some []
  | line :: rest, oldL, newL =>
    match matchHunkHeaderL line.data with
    | some ab => parseDiffLines rest (some ab.1) (some ab.2)
    | none =>
      match line.data with
      | [] => parseDiffLines rest oldL newL
      | c :: cs =>
        if c = ' ' then
          match oldL, newL with
          | some o, some n =>
            (parseDiffLines rest (some (o + 1)) (some (n + 1))).map
              (fun tl => ⟨String.mk cs, some o, some n, "none"⟩ :: tl)
          | _, _ => none
        else if c = '-' then
          match oldL with
          | some o =>
            (parseDiffLines rest (some (o + 1)) newL).map
              (fun tl => ⟨String.mk cs, some o, none, "old"⟩ :: tl)
          | none => none
        else if c = '+' then
          match newL with
          | some n =>
            (parseDiffLines rest oldL (some (n + 1))).map
              (fun tl => ⟨String.mk cs, none, some n, "new"⟩ :: tl)
          | none => none
        else parseDiffLines rest oldL newL

/-- Function `parse_diff_block`: parse a single diff block and calculate
line numbers for old and new files.  `none` models an uncaught
exception. -/
def parse_diff_block (diff_block : String) : Option (List ParsedLine) :=
  parseDiffLines (splitlines diff_block) none none

example : parse_diff_block "@@ -1,2 +1,3 @@\n line1\n-old2\n+new2\n+new3" =
    some [⟨"line1", some 1, some 1, "none"⟩,
          ⟨"old2", some 2, none, "old"⟩,
          ⟨"new2", none, some 2, "new"⟩,
          ⟨"new3", none, some 3, "new"⟩] := by decide

example : parse_diff_block " x" = none := by decide

example : matchHunkHeaderL "@@ -5 +3 @@".data = none := by decide

example : matchHunkHeaderL "@@ -5,1 +3 @@".data = some (5, 3) := by decide

example : matchHunkHeaderL "@@ -12,7 +34,9 @@ def f():".data = some (12, 34) := by decide

/-- Python `"\n".join(...)` on a list of strings. -/
def joinNL : List String → String
  | [] => ""
  | [a] => a
  | a :: b :: t => a ++ "\n" ++ joinNL (b :: t)

/-- The displayed line number chosen in `summarize_diffs_multiline`:
`line.new_line if line.new_line is not None else line.old_line`,
formatted the way the f-string prints it (`None` when both absent). -/
def lineNumberStr (pl : ParsedLine) : String :=
  match pl.new_line with
  | some n => toString n
  | none =>
    match pl.old_line with
    | some o => toString o
    | none => "None"

/-- The marker dictionary of `summarize_diffs_multiline` with its
default of the empty string. -/
def line_marker (t : String) : String :=
  if t = "none" then "(*)"
  else if t = "old" then "(-)"
  else if t = "new" then "(+)"
  else if t = "block" then ""
  else ""

/-- One rendered line of the diff summary
(`f"{line_number} {line_type}: {line.content}"`). -/
def summarize_line (pl : ParsedLine) : String :=
  lineNumberStr pl ++ " " ++ line_marker pl.type ++ ": " ++ pl.content

/-- Python `diff.newpath or diff.oldpath`. -/
def file_path (d : Diff) : String :=
  if d.newpath ≠ "" then d.newpath else d.oldpath

/-- Function `summarize_diffs_multiline`: path header, one line per
parsed line, and a blank separator line after each file. -/
def summarize_diffs_multiline (diffs : List Diff) : String :=
  joinNL ((diffs.map
    (fun d => ("PATH: " ++ file_path d) :: d.parsed_lines.map summarize_line ++ [""])).flatten)

/-- Function `estimate_tokens`: sum of the tokenizer counts of each
message content.  The tokenizer `tok` stands for
`len(tiktoken.encoding_for_model(model).encode(-))`, an external pure
collaborator kept abstract. -/
def estimate_tokens (tok : String → Nat) (messages : List Message) : Nat :=
  (messages.map (fun m => tok m.content)).sum

/-- Token cost of one diff inside `split_into_chunks`:
the tokenizer applied to `summarize_diffs_multiline([diff])`. -/
def diffCost (tok : String → Nat) (d : Diff) : Nat :=
  tok (summarize_diffs_multiline [d])

/-- Loop of `split_into_chunks` over the remaining diffs, carrying the
current chunk and the running token counter.  The ceiling is an `Int`
because `max_tokens_per_chunk` is computed by a Python subtraction that
may go negative. -/
def splitGo (cost : Diff → Nat) (maxT : Int) (base : Nat) :
    List Diff → List Diff → Nat → List (List Diff)
  | [], cur, _ => if cur = [] then [] else [cur]
  | d :: ds, cur, t =>
    if (t : Int) + cost d > maxT then
      cur :: splitGo cost maxT base ds [d] (base + cost d)
    else
      splitGo cost maxT base ds (cur ++ [d]) (t + cost d)

/-- Function `split_into_chunks`: split diffs into chunks based on token
limits.  The running counter starts at the token cost of the base
messages and is reset to it (plus the new diff's cost) whenever a chunk
is closed. -/
def split_into_chunks (tok : String → Nat) (max_tokens_per_chunk : Int)
    (base_messages : List Message) (diffs : List Diff) : List (List Diff) :=
  splitGo (diffCost tok) max_tokens_per_chunk (estimate_tokens tok base_messages)
    diffs [] (estimate_tokens tok base_messages)

/-- The `token_stats` dictionary of `ChatGPTReviewer`. -/
structure TokenStats where
  total_tokens : Nat
  static_tokens : Nat
  diff_tokens : Nat
  deriving DecidableEq

/-- The state of a `ChatGPTReviewer` instance that the verified claims
depend on (the OpenAI client handle is omitted; the model identifier is
folded into the abstract tokenizer `tok`). -/
structure Reviewer where
  prompt_message : String
  token_limit : Nat
  max_tokens_per_chunk : Int
  token_stats : TokenStats
  deriving DecidableEq

/-- The static JSON instructions appended to the loaded prompt in
`load_prompt_message` (the triple-quoted literal of the source). -/
def static_instructions : String :=
  "\nOutput: Respond in JSON format with concise comments, don\x27t be polite here. Each review item should be an object with fields \"Path\", \"StartLine\", \"EndLine\", \"Type\" and \"Comment\". Where \"Type\": \"old\" when commenting removals, and \"Type\": \"new\" when commenting additions. Join all items in an array:\n\n[\n  \x7b\"Path\": \"/path/to/file1\", \"StartLine\": 132, \"EndLine\": 135, \"Type\": \"old\", \"Comment\": \"Review comment 1\"\x7d,\n  \x7b\"Path\": \"/path/to/file2\", \"StartLine\": 155, \"EndLine\": 165, \"Type\": \"new\", \"Comment\": \"Review comment 2\"\x7d,\n  \x7b\"Path\": \"/path/to/fileN\", \"StartLine\": 250, \"EndLine\": 255, \"Type\": \"new\", \"Comment\": \"Review comment N\"\x7d\n]\n"

/-- Constructor `ChatGPTReviewer.__init__`.  `prompt_base` stands for
the externally loaded (or default) prompt file content, to which
`load_prompt_message` appends the static instructions.  The static
token count is fixed here and `max_tokens_per_chunk` is the configured
limit minus the prompt cost. -/
def chatgpt_reviewer_init (tok : String → Nat) (prompt_base : String)
    (token_limit : Nat) : Reviewer :=
  let pm := prompt_base ++ static_instructions
  let prompt_tokens := tok pm
  { prompt_message := pm
    token_limit := token_limit
    max_tokens_per_chunk := (token_limit : Int) - prompt_tokens
    token_stats := { total_tokens := 0, static_tokens := prompt_tokens, diff_tokens := 0 } }

/-- Body of the per-chunk loop of `get_review`: renders the chunk,
accumulates `diff_tokens` and `total_tokens`, sends the messages (the
external chat call `send`) and collects the response. -/
def reviewStep (tok : String → Nat) (send : List Message → String)
    (base_messages : List Message) (acc : TokenStats × List String)
    (chunk : List Diff) : TokenStats × List String :=
  let diff_summary := summarize_diffs_multiline chunk
  let messages := base_messages ++ [⟨"user", diff_summary⟩]
  let message_text := joinNL (messages.map Message.content)
  let st := acc.1
  ({ st with
      diff_tokens := st.diff_tokens + tok diff_summary
      total_tokens := st.total_tokens + tok message_text },
   acc.2 ++ [send messages])

/-- The base messages built at the start of `get_review`: the system
prompt, plus a task-details user message when `task_details` is a
non-empty (truthy) string. -/
def baseMessages (r : Reviewer) (task_details : String) : List Message :=
  ⟨"system", r.prompt_message⟩ ::
    (if task_details ≠ "" then [⟨"user", "Task Details: " ++ task_details⟩] else [])

/-- Method `ChatGPTReviewer.get_review`: plans the chunks, processes
them in order while updating the token statistics, and returns the
updated reviewer state together with the collected raw responses. -/
def get_review (tok : String → Nat) (send : List Message → String)
    (r : Reviewer) (diffs : List Diff) (task_details : String) :
    Reviewer × List String :=
  let base_messages := baseMessages r task_details
  let chunks := split_into_chunks tok r.max_tokens_per_chunk base_messages diffs
  let res := chunks.foldl (reviewStep tok send base_messages) (r.token_stats, [])
  ({ r with token_stats := res.1 }, res.2)

/-- A sequence of `get_review` calls on the same reviewer instance
(each call is a diffs list together with its task details). -/
def runCalls (tok : String → Nat) (send : List Message → String)
    (r : Reviewer) (calls : List (List Diff × String)) : Reviewer :=
  calls.foldl (fun r c => (get_review tok send r c.1 c.2).1) r

/-- JSON values as produced by Python's `json.loads` (numbers modelled
as integers; the review pipeline only consumes integer fields). -/
inductive Json where
  | null
  | bool (b : Bool)
  | num (n : Int)
  | str (s : String)
  | arr (elems : List Json)
  | obj (fields : List (String × Json))

/-- Pydantic model `ReviewComment`. -/
structure ReviewComment where
  Comment : String
  Path : Option String
  StartLine : Int
  EndLine : Int
  «Type» : String
  deriving DecidableEq

/-- The fence-stripping prelude of the posting loop: if the part starts
with the seven characters of a backtick-json fence, the first eight
characters are sliced off (`part_comments[8:]` in the source); if it
then ends with three backticks, the last three characters are sliced
off. -/
def strip_fences (s : String) : String :=
  let s1 := if "```json".data.isPrefixOf s.data then String.mk (s.data.drop 8) else s
  if "```".data.isSuffixOf s1.data then String.mk (s1.data.take (s1.data.length - 3)) else s1

/-- Lookup of a key in a decoded JSON object. -/
def jlookup (fields : List (String × Json)) (k : String) : Option Json :=
  match fields.find? (fun p => p.1 == k) with
  | some p => some p.2
  | none => none

/-- Shape validation `ReviewComment(**comment_data)`: `Comment`,
`StartLine`, `EndLine` and `Type` are required with their annotated
types, `Path` is optional and defaults to `None`.  `none` models a
pydantic `ValidationError`. -/
def validateComment (j : Json) : Option ReviewComment :=
  match j with
  | Json.obj fields =>
    match jlookup fields "Comment", jlookup fields "StartLine",
          jlookup fields "EndLine", jlookup fields "Type" with
    | some (Json.str c), some (Json.num s), some (Json.num e), some (Json.str t) =>
      match jlookup fields "Path" with
      | some (Json.str p) => some ⟨c, some p, s, e, t⟩
      | some Json.null => some ⟨c, none, s, e, t⟩
      | none => some ⟨c, none, s, e, t⟩
      | some _ => none
    | _, _, _, _ => none
  | _ => none

/-- Entries of the `error_details` list of `post_review_comments`
(string entries and dict entries modelled structurally). -/
inductive ErrEntry where
  | partNotList (part : Nat)
  | invalidComment (part : Nat)
  | postFailed (part : Nat) (comment : ReviewComment) (err : String)
  deriving DecidableEq

/-- Observable state threaded through the posting loop: the accumulated
error details and the comments for which `mr.discussions.create` was
invoked (the posting side effect), in order. -/
structure PostState where
  error_details : List ErrEntry
  attempts : List ReviewComment
  deriving DecidableEq

/-- Return value of `post_review_comments`: the fatal invalid-JSON
message, the aggregated error summary, or `None`. -/
inductive PostResult where
  | invalidJson
  | failed (details : List ErrEntry)
  | ok
  deriving DecidableEq

/-- Processing of a single decoded comment element: a non-object raises
an uncaught `TypeError` (modelled by `none`); an object failing shape
validation is recorded and skipped; a validated comment is posted, and
a remote rejection (`postFn c = some err`, modelling
`GitlabCreateError`) is recorded without aborting. -/
def processElem (postFn : ReviewComment → Option String) (part : Nat)
    (st : PostState) (j : Json) : Option PostState :=
  match j with
  | Json.obj _ =>
    match validateComment j with
    | none => some { st with error_details := st.error_details ++ [ErrEntry.invalidComment part] }
    | some c =>
      match postFn c with
      | none => some { st with attempts := st.attempts ++ [c] }
      | some e =>
        some { st with
                attempts := st.attempts ++ [c]
                error_details := st.error_details ++ [ErrEntry.postFailed part c e] }
  | _ => none

/-- The inner loop over the elements of one decoded part. -/
def processElems (postFn : ReviewComment → Option String) (part : Nat) :
    PostState → List Json → Option PostState
  | st, [] => some st
  | st, j :: js =>
    match processElem postFn part st j with
    | none => none
    | some st' => processElems postFn part st' js

/-- The outer loop of `post_review_comments` over the response parts
(part indices starting at 1).  `jparse` stands for `json.loads`
(`none` = `JSONDecodeError`); a parse failure returns the fatal
invalid-JSON result immediately; a decoded non-array part is recorded
and skipped; the final return value is `None` (`ok`) exactly when no
error details were collected.  An overall `none` models an uncaught
exception. -/
def postGo (jparse : String → Option Json) (postFn : ReviewComment → Option String) :
    List String → Nat → PostState → Option (PostState × PostResult)
  | [], _, st =>
    some (st, if st.error_details = [] then PostResult.ok else PostResult.failed st.error_details)
  | raw :: rest, part, st =>
    match jparse (strip_fences raw) with
    | none => some (st, PostResult.invalidJson)
    | some j =>
      match j with
      | Json.arr elems =>
        match processElems postFn part st elems with
        | none => none
        | some st' => postGo jparse postFn rest (part + 1) st'
      | _ =>
        postGo jparse postFn rest (part + 1)
          { st with error_details := st.error_details ++ [ErrEntry.partNotList part] }

/-- Function `post_review_comments` on a list of raw response parts. -/
def post_review_comments (jparse : String → Option Json)
    (postFn : ReviewComment → Option String) (review_comments : List String) :
    Option (PostState × PostResult) :=
  postGo jparse postFn review_comments 1 ⟨[], []⟩

/-- Error entries contributed by the elements of one part, in order. -/
def elemErrors (postFn : ReviewComment → Option String) (part : Nat) :
    List Json → List ErrEntry
  | [] => []
  | j :: js =>
    (match validateComment j with
     | none => [ErrEntry.invalidComment part]
     | some c =>
       match postFn c with
       | none => []
       | some e => [ErrEntry.postFailed part c e]) ++ elemErrors postFn part js

/-- Error entries contributed by a list of decoded parts, numbering the
parts from the given index. -/
def partsErrors (postFn : ReviewComment → Option String) :
    Nat → List (List Json) → List ErrEntry
  | _, [] => []
  | p, elems :: rest => elemErrors postFn p elems ++ partsErrors postFn (p + 1) rest

/-- All validated comments of a list of decoded parts, in order. -/
def partAttempts (partsJson : List (List Json)) : List ReviewComment :=
  (partsJson.map (fun elems => elems.filterMap validateComment)).flatten

/-- Flattening the chunk list restores exactly the diffs handed to the
splitting loop, appended after the current chunk. -/
lemma splitGo_flatten (cost : Diff → Nat) (maxT : Int) (base : Nat) :
    ∀ (ds cur : List Diff) (t : Nat),
      (splitGo cost maxT base ds cur t).flatten = cur ++ ds := by
  intro ds
  induction ds with
  | nil =>
    intro cur t
    by_cases h : cur = [] <;> simp [splitGo, h]
  | cons d ds ih =>
    intro cur t
    by_cases h : (t : Int) + cost d > maxT
    · simp [splitGo, h, ih]
    · simp [splitGo, h, ih]

/-- C1: for every input sequence of diffs and every token ceiling,
`split_into_chunks` never splits a single diff across two chunks, and
the concatenation of the diffs of all returned chunks, in order, equals
the original input sequence.  (Each `Diff` value is placed whole into
exactly one position of the chunk list, so flattening being the
identity expresses both halves of the claim.) -/
theorem c1_chunks_concat_id (tok : String → Nat) (maxT : Int)
    (base_messages : List Message) (diffs : List Diff) :
    (split_into_chunks tok maxT base_messages diffs).flatten = diffs := by
  simpa using
    splitGo_flatten (diffCost tok) maxT (estimate_tokens tok base_messages) diffs []
      (estimate_tokens tok base_messages)

/-- First scenario diff of the chunk-size scenario (rendered summary
costed at 100 tokens by the scenario tokenizer). -/
def scenarioFile1 : Diff := ⟨"", "a", []⟩

/-- Second scenario diff of the chunk-size scenario (rendered summary
costed at 150 tokens). -/
def scenarioFile2 : Diff := ⟨"", "b", []⟩

/-- Scenario tokenizer: 100 tokens for the first file's rendered
summary, 150 for the second, 20 for anything else (in particular the
base message). -/
def scenarioTok : String → Nat := fun s =>
  if s = summarize_diffs_multiline [scenarioFile1] then 100
  else if s = summarize_diffs_multiline [scenarioFile2] then 150
  else 20

/-- C3: the splitting loop keeps a running token counter started at the
base-message cost; a diff whose rendered cost would push the counter
over the ceiling closes the current chunk and starts a new one reset to
the base cost (plus the diff just appended), and every diff is appended
to the current chunk; with summary costs 100 and 150, ceiling 200 and
base cost 20 the result is the two singleton chunks. -/
theorem c3_running_counter_scenario :
    (∀ (cost : Diff → Nat) (maxT : Int) (base : Nat) (d : Diff)
        (ds cur : List Diff) (t : Nat),
      splitGo cost maxT base (d :: ds) cur t =
        if (t : Int) + cost d > maxT then
          cur :: splitGo cost maxT base ds [d] (base + cost d)
        else splitGo cost maxT base ds (cur ++ [d]) (t + cost d)) ∧
    (∀ (tok : String → Nat) (maxT : Int) (bm : List Message) (diffs : List Diff),
      split_into_chunks tok maxT bm diffs =
        splitGo (diffCost tok) maxT (estimate_tokens tok bm) diffs []
          (estimate_tokens tok bm)) ∧
    split_into_chunks scenarioTok 200 [⟨"system", "p"⟩] [scenarioFile1, scenarioFile2] =
      [[scenarioFile1], [scenarioFile2]] := by
  refine ⟨fun cost maxT base d ds cur t => rfl, fun tok maxT bm diffs => rfl, by decide⟩

/-- C10: when the base-message cost plus the first diff's rendered cost
already exceeds the ceiling, the first chunk pushed to the result is
empty; in general a close triggered while nothing has been appended
since the last close pushes the empty accumulated chunk. -/
theorem c10_empty_chunk :
    (∀ (tok : String → Nat) (maxT : Int) (bm : List Message) (d : Diff) (ds : List Diff),
      (estimate_tokens tok bm : Int) + diffCost tok d > maxT →
      (split_into_chunks tok maxT bm (d :: ds)).head? = some []) ∧
    (∀ (cost : Diff → Nat) (maxT : Int) (base : Nat) (d : Diff) (ds : List Diff) (t : Nat),
      (t : Int) + cost d > maxT →
      splitGo cost maxT base (d :: ds) [] t =
        [] :: splitGo cost maxT base ds [d] (base + cost d)) := by
  constructor
  · intro tok maxT bm d ds h
    simp [split_into_chunks, splitGo, h]
  · intro cost maxT base d ds t h
    simp [splitGo, h]

/-- Witness for C10 at a concrete over-budget first diff. -/
theorem c10_empty_chunk_witness :
    ((estimate_tokens (fun _ => 10) [⟨"system", "p"⟩] : Int) +
        diffCost (fun _ => 10) ⟨"", "a", []⟩ > 5) ∧
    (split_into_chunks (fun _ => 10) 5 [⟨"system", "p"⟩] [⟨"", "a", []⟩]).head? = some [] :=
  ⟨by decide,
   c10_empty_chunk.1 (fun _ => 10) 5 [⟨"system", "p"⟩] ⟨"", "a", []⟩ [] (by decide)⟩

/-- A line whose first character is not an at-sign never matches the
hunk-header regex. -/
lemma matchHunkHeaderL_of_head (c : Char) (cs : List Char) (h : c ≠ '@') :
    matchHunkHeaderL (c :: cs) = none := by
  rcases cs with _ | ⟨b, _ | ⟨c2, _ | ⟨d, r⟩⟩⟩ <;> simp [matchHunkHeaderL, h]

/-- A matched hunk header starts with an at-sign (hence is neither
space- nor minus- nor plus-prefixed). -/
lemma header_head {l : String} {p : Nat × Nat}
    (h : matchHunkHeaderL l.data = some p) : l.data.head? = some '@' := by
  cases hd : l.data with
  | nil => rw [hd] at h; simp [matchHunkHeaderL] at h
  | cons c cs =>
    rw [hd] at h
    by_cases hc : c = '@'
    · simp [hc]
    · rw [matchHunkHeaderL_of_head c cs hc] at h; cases h

/-- Step equation: a hunk-header line resets both counters and emits
nothing. -/
lemma step_header (line : String) (rest : List String) (oL nL : Option Nat) (a b : Nat)
    (h : matchHunkHeaderL line.data = some (a, b)) :
    parseDiffLines (line :: rest) oL nL = parseDiffLines rest (some a) (some b) := by
  simp [parseDiffLines, h]

/-- Step equation: an empty line is dropped. -/
lemma step_empty (line : String) (rest : List String) (oL nL : Option Nat)
    (hm : matchHunkHeaderL line.data = none) (hd : line.data = []) :
    parseDiffLines (line :: rest) oL nL = parseDiffLines rest oL nL := by
  rw [hd] at hm
  simp [parseDiffLines, hm, hd]

/-- Step equation: a space-prefixed line with both counters set emits an
unchanged line and increments both counters. -/
lemma step_space (line : String) (rest : List String) (o n : Nat) (cs : List Char)
    (hm : matchHunkHeaderL line.data = none) (hd : line.data = ' ' :: cs) :
    parseDiffLines (line :: rest) (some o) (some n) =
      (parseDiffLines rest (some (o + 1)) (some (n + 1))).map
        (fun tl => ⟨String.mk cs, some o, some n, "none"⟩ :: tl) := by
  rw [hd] at hm
  simp [parseDiffLines, hm, hd]

/-- Step equation: a space-prefixed line with a missing counter raises
(the Python increment of None). -/
lemma step_space_crash (line : String) (rest : List String) (oL nL : Option Nat) (cs : List Char)
    (hm : matchHunkHeaderL line.data = none) (hd : line.data = ' ' :: cs)
    (hn : oL = none ∨ nL = none) :
    parseDiffLines (line :: rest) oL nL = none := by
  rw [hd] at hm
  cases oL <;> cases nL <;> simp_all [parseDiffLines, hm, hd]

/-- Step equation: a minus-prefixed line with the old counter set emits a
removed line and increments only the old counter. -/
lemma step_minus (line : String) (rest : List String) (o : Nat) (nL : Option Nat) (cs : List Char)
    (hm : matchHunkHeaderL line.data = none) (hd : line.data = '-' :: cs) :
    parseDiffLines (line :: rest) (some o) nL =
      (parseDiffLines rest (some (o + 1)) nL).map
        (fun tl => ⟨String.mk cs, some o, none, "old"⟩ :: tl) := by
  rw [hd] at hm
  simp [parseDiffLines, hm, hd]

/-- Step equation: a minus-prefixed line with no old counter raises. -/
lemma step_minus_crash (line : String) (rest : List String) (nL : Option Nat) (cs : List Char)
    (hm : matchHunkHeaderL line.data = none) (hd : line.data = '-' :: cs) :
    parseDiffLines (line :: rest) none nL = none := by
  rw [hd] at hm
  simp [parseDiffLines, hm, hd]

/-- Step equation: a plus-prefixed line with the new counter set emits an
added line and increments only the new counter. -/
lemma step_plus (line : String) (rest : List String) (oL : Option Nat) (n : Nat) (cs : List Char)
    (hm : matchHunkHeaderL line.data = none) (hd : line.data = '+' :: cs) :
    parseDiffLines (line :: rest) oL (some n) =
      (parseDiffLines rest oL (some (n + 1))).map
        (fun tl => ⟨String.mk cs, none, some n, "new"⟩ :: tl) := by
  rw [hd] at hm
  simp [parseDiffLines, hm, hd]

/-- Step equation: a plus-prefixed line with no new counter raises. -/
lemma step_plus_crash (line : String) (rest : List String) (oL : Option Nat) (cs : List Char)
    (hm : matchHunkHeaderL line.data = none) (hd : line.data = '+' :: cs) :
    parseDiffLines (line :: rest) oL none = none := by
  rw [hd] at hm
  simp [parseDiffLines, hm, hd]

/-- Step equation: a line that is neither a header nor prefixed with
space, minus or plus is silently dropped. -/
lemma step_skip (line : String) (rest : List String) (oL nL : Option Nat) (c : Char) (cs : List Char)
    (hm : matchHunkHeaderL line.data = none) (hd : line.data = c :: cs)
    (h1 : c ≠ ' ') (h2 : c ≠ '-') (h3 : c ≠ '+') :
    parseDiffLines (line :: rest) oL nL = parseDiffLines rest oL nL := by
  rw [hd] at hm
  simp [parseDiffLines, hm, hd, h1, h2, h3]

/-- Whenever the scanning loop returns successfully, the emitted
unchanged lines are in bijection with the space-prefixed input lines. -/
lemma parse_count_aux :
    ∀ (lines : List String) (oL nL : Option Nat) (res : List ParsedLine),
      parseDiffLines lines oL nL = some res →
      res.countP (fun pl => pl.type == "none") =
        lines.countP (fun l => l.data.head? == some ' ') := by
  intro lines
  induction lines with
  | nil =>
    intro oL nL res h
    simp only [parseDiffLines, Option.some.injEq] at h
    subst h; simp
  | cons line rest ih =>
    intro oL nL res h
    rw [List.countP_cons]
    cases hm : matchHunkHeaderL line.data with
    | some ab =>
      rw [step_header line rest oL nL ab.1 ab.2 (by simpa using hm)] at h
      have hh : line.data.head? = some '@' := header_head hm
      simp [hh]
      simpa using ih _ _ _ h
    | none =>
      cases hd : line.data with
      | nil =>
        rw [step_empty line rest oL nL hm hd] at h
        simpa using ih _ _ _ h
      | cons c cs =>
        by_cases hc : c = ' '
        · subst hc
          match oL, nL with
          | some o, some n =>
            rw [step_space line rest o n cs hm hd] at h
            rcases Option.map_eq_some'.1 h with ⟨tl, htl, hres⟩
            subst hres
            rw [List.countP_cons]
            simp [ih _ _ _ htl]
          | some _, none =>
            rw [step_space_crash line rest _ _ cs hm hd (Or.inr rfl)] at h; cases h
          | none, _ =>
            rw [step_space_crash line rest _ _ cs hm hd (Or.inl rfl)] at h; cases h
        · by_cases hc2 : c = '-'
          · subst hc2
            match oL with
            | some o =>
              rw [step_minus line rest o nL cs hm hd] at h
              rcases Option.map_eq_some'.1 h with ⟨tl, htl, hres⟩
              subst hres
              rw [List.countP_cons]
              simpa using ih _ _ _ htl
            | none =>
              rw [step_minus_crash line rest nL cs hm hd] at h; cases h
          · by_cases hc3 : c = '+'
            · subst hc3
              match nL with
              | some n =>
                rw [step_plus line rest oL n cs hm hd] at h
                rcases Option.map_eq_some'.1 h with ⟨tl, htl, hres⟩
                subst hres
                rw [List.countP_cons]
                simpa using ih _ _ _ htl
              | none =>
                rw [step_plus_crash line rest oL cs hm hd] at h; cases h
            · rw [step_skip line rest oL nL c cs hm hd hc hc2 hc3] at h
              simp [hc]
              simpa using ih _ _ _ h

/-- Within a single hunk (no further headers), each emitted line's old
number is the hunk's old start plus the count of previously consumed
unchanged/removed lines, and symmetrically for the new number: the two
counters advance by exactly one per consumed line of the relevant
kinds. -/
lemma parse_numbering_aux :
    ∀ (lines : List String) (a b : Nat) (res : List ParsedLine),
      (∀ l ∈ lines, matchHunkHeaderL l.data = none) →
      parseDiffLines lines (some a) (some b) = some res →
      ∀ (i : Nat) (pl : ParsedLine), res[i]? = some pl →
        (pl.type ≠ "new" →
          pl.old_line =
            some (a + (res.take i).countP (fun q => q.type == "none" || q.type == "old"))) ∧
        (pl.type ≠ "old" →
          pl.new_line =
            some (b + (res.take i).countP (fun q => q.type == "none" || q.type == "new"))) := by
  intro lines
  induction lines with
  | nil =>
    intro a b res _ h i pl hpl
    simp only [parseDiffLines, Option.some.injEq] at h
    subst h; simp at hpl
  | cons line rest ih =>
    intro a b res hnh h i pl hpl
    have hm : matchHunkHeaderL line.data = none := hnh line (by simp)
    have hnh' : ∀ l ∈ rest, matchHunkHeaderL l.data = none :=
      fun l hl => hnh l (by simp [hl])
    cases hd : line.data with
    | nil =>
      rw [step_empty line rest _ _ hm hd] at h
      exact ih a b res hnh' h i pl hpl
    | cons c cs =>
      by_cases hc : c = ' '
      · subst hc
        rw [step_space line rest a b cs hm hd] at h
        rcases Option.map_eq_some'.1 h with ⟨tl, htl, hres⟩
        subst hres
        match i with
        | 0 =>
          simp only [List.getElem?_cons_zero, Option.some.injEq] at hpl
          subst hpl; simp
        | j + 1 =>
          simp only [List.getElem?_cons_succ] at hpl
          have hj := ih (a + 1) (b + 1) tl hnh' htl j pl hpl
          rw [List.take_succ_cons, List.countP_cons, List.countP_cons]
          refine ⟨fun hne => ?_, fun hne => ?_⟩
          · rw [hj.1 hne]; simp; omega
          · rw [hj.2 hne]; simp; omega
      · by_cases hc2 : c = '-'
        · subst hc2
          rw [step_minus line rest a _ cs hm hd] at h
          rcases Option.map_eq_some'.1 h with ⟨tl, htl, hres⟩
          subst hres
          match i with
          | 0 =>
            simp only [List.getElem?_cons_zero, Option.some.injEq] at hpl
            subst hpl
            exact ⟨fun _ => by simp, fun hne => absurd rfl hne⟩
          | j + 1 =>
            simp only [List.getElem?_cons_succ] at hpl
            have hj := ih (a + 1) b tl hnh' htl j pl hpl
            rw [List.take_succ_cons, List.countP_cons, List.countP_cons]
            refine ⟨fun hne => ?_, fun hne => ?_⟩
            · rw [hj.1 hne]; simp; omega
            · rw [hj.2 hne]; simp
        · by_cases hc3 : c = '+'
          · subst hc3
            rw [step_plus line rest _ b cs hm hd] at h
            rcases Option.map_eq_some'.1 h with ⟨tl, htl, hres⟩
            subst hres
            match i with
            | 0 =>
              simp only [List.getElem?_cons_zero, Option.some.injEq] at hpl
              subst hpl
              exact ⟨fun hne => absurd rfl hne, fun _ => by simp⟩
            | j + 1 =>
              simp only [List.getElem?_cons_succ] at hpl
              have hj := ih a (b + 1) tl hnh' htl j pl hpl
              rw [List.take_succ_cons, List.countP_cons, List.countP_cons]
              refine ⟨fun hne => ?_, fun hne => ?_⟩
              · rw [hj.1 hne]; simp
              · rw [hj.2 hne]; simp; omega
          · rw [step_skip line rest _ _ c cs hm hd hc hc2 hc3] at h
            exact ih a b res hnh' h i pl hpl

/-- C2: the number of parsed lines of kind unchanged equals the number
of space-prefixed input lines, and within a hunk the old counter
advances by one per unchanged/removed line and the new counter by one
per unchanged/added line (expressed in closed form: an emitted line's
number is the hunk start plus the number of previously emitted lines of
the counting kinds), resetting only at hunk headers. -/
theorem c2_unchanged_count_and_counters :
    (∀ (s : String) (res : List ParsedLine),
      parse_diff_block s = some res →
      res.countP (fun pl => pl.type == "none") =
        (splitlines s).countP (fun l => l.data.head? == some ' ')) ∧
    (∀ (lines : List String) (a b : Nat) (res : List ParsedLine),
      (∀ l ∈ lines, matchHunkHeaderL l.data = none) →
      parseDiffLines lines (some a) (some b) = some res →
      ∀ (i : Nat) (pl : ParsedLine), res[i]? = some pl →
        (pl.type ≠ "new" →
          pl.old_line =
            some (a + (res.take i).countP (fun q => q.type == "none" || q.type == "old"))) ∧
        (pl.type ≠ "old" →
          pl.new_line =
            some (b + (res.take i).countP (fun q => q.type == "none" || q.type == "new")))) :=
  ⟨fun _ res h => parse_count_aux _ _ _ res h, parse_numbering_aux⟩

/-- Witness for C2 on the spec's example diff and on a small hunk. -/
theorem c2_unchanged_count_and_counters_witness :
    (List.countP (fun pl => pl.type == "none")
        [(⟨"line1", some 1, some 1, "none"⟩ : ParsedLine),
         ⟨"old2", some 2, none, "old"⟩,
         ⟨"new2", none, some 2, "new"⟩,
         ⟨"new3", none, some 3, "new"⟩] =
      List.countP (fun l => l.data.head? == some ' ')
        (splitlines "@@ -1,2 +1,3 @@\n line1\n-old2\n+new2\n+new3")) ∧
    (((⟨"b", some 5, none, "old"⟩ : ParsedLine).type ≠ "new" →
      (⟨"b", some 5, none, "old"⟩ : ParsedLine).old_line =
        some (4 + (([(⟨"a", some 4, some 7, "none"⟩ : ParsedLine),
                     ⟨"b", some 5, none, "old"⟩].take 1).countP
          (fun q => q.type == "none" || q.type == "old")))) ∧
     ((⟨"b", some 5, none, "old"⟩ : ParsedLine).type ≠ "old" →
      (⟨"b", some 5, none, "old"⟩ : ParsedLine).new_line =
        some (7 + (([(⟨"a", some 4, some 7, "none"⟩ : ParsedLine),
                     ⟨"b", some 5, none, "old"⟩].take 1).countP
          (fun q => q.type == "none" || q.type == "new"))))) :=
  ⟨c2_unchanged_count_and_counters.1 "@@ -1,2 +1,3 @@\n line1\n-old2\n+new2\n+new3"
      [⟨"line1", some 1, some 1, "none"⟩, ⟨"old2", some 2, none, "old"⟩,
       ⟨"new2", none, some 2, "new"⟩, ⟨"new3", none, some 3, "new"⟩] (by decide),
   c2_unchanged_count_and_counters.2 [" a", "-b"] 4 7
      [⟨"a", some 4, some 7, "none"⟩, ⟨"b", some 5, none, "old"⟩]
      (by decide) (by decide) 1 ⟨"b", some 5, none, "old"⟩ (by decide)⟩

/-- C6 counterexample: a hunk header omitting the old count, such as
the claim's example line, is NOT matched by the code's regex (the old
count is mandatory in `@@ -(\d+),\d+ \+(\d+)(?:,\d+)? @@`), so the line
is not recognized as a header; the following space-prefixed line is
then consumed with uninitialized counters and the parse raises instead
of emitting the line numbered from the header. -/
theorem c6_counterexample :
    matchHunkHeaderL "@@ -5 +3 @@".data = none ∧
    parse_diff_block "@@ -5 +3 @@\n x" = none := by
  decide

/-- C6 amended: a line matched by the code's hunk-header pattern (old
count mandatory, new count optional) resets the old and new counters to
the captured starts and is not itself emitted as a content line; the
pattern accepts headers with and without the optional new count. -/
theorem c6_amended_header :
    (∀ (line : String) (a b : Nat), matchHunkHeaderL line.data = some (a, b) →
      ∀ (lines : List String) (oL nL : Option Nat),
        parseDiffLines (line :: lines) oL nL = parseDiffLines lines (some a) (some b)) ∧
    matchHunkHeaderL "@@ -5,1 +3 @@".data = some (5, 3) ∧
    matchHunkHeaderL "@@ -5,1 +3,2 @@".data = some (5, 3) :=
  ⟨fun line a b h lines oL nL => step_header line lines oL nL a b h,
   by decide, by decide⟩

/-- Witness for the amended C6 at a concrete header line. -/
theorem c6_amended_header_witness :
    parseDiffLines ["@@ -5,1 +3 @@", " x"] none none =
      parseDiffLines [" x"] (some 5) (some 3) :=
  c6_amended_header.1 "@@ -5,1 +3 @@" 5 3 (by decide) [" x"] none none

/-- C7 counterexample: a content line appearing before any hunk header
makes `parse_diff_block` raise (a Python `TypeError` from incrementing
a `None` counter), contradicting the claim that no input causes a fatal
error. -/
theorem c7_counterexample : parse_diff_block " x" = none := by decide

/-- Python `line.startswith(" ") or line.startswith("-") or
line.startswith("+")`: the line is one of the three content kinds. -/
def isContentLine (l : String) : Bool :=
  match l.data with
  | c :: _ => c == ' ' || c == '-' || c == '+'
  | [] => false

/-- Every content line of the list is preceded by some hunk-header
line. -/
def noContentBeforeHeader : List String → Bool
  | [] => true
  | l :: ls =>
    if (matchHunkHeaderL l.data).isSome then true
    else if isContentLine l then false
    else noContentBeforeHeader ls

/-- Once both counters are initialized by a header, the scanning loop
can no longer raise. -/
lemma parse_total_after_header :
    ∀ (lines : List String) (a b : Nat),
      ∃ res, parseDiffLines lines (some a) (some b) = some res := by
  intro lines
  induction lines with
  | nil => intro a b; exact ⟨[], rfl⟩
  | cons line rest ih =>
    intro a b
    cases hm : matchHunkHeaderL line.data with
    | some ab =>
      obtain ⟨res, hres⟩ := ih ab.1 ab.2
      exact ⟨res, by rw [step_header line rest _ _ ab.1 ab.2 (by simpa using hm), hres]⟩
    | none =>
      cases hd : line.data with
      | nil =>
        obtain ⟨res, hres⟩ := ih a b
        exact ⟨res, by rw [step_empty line rest _ _ hm hd, hres]⟩
      | cons c cs =>
        by_cases hc : c = ' '
        · subst hc
          obtain ⟨res, hres⟩ := ih (a + 1) (b + 1)
          exact ⟨_, by rw [step_space line rest a b cs hm hd, hres]; rfl⟩
        · by_cases hc2 : c = '-'
          · subst hc2
            obtain ⟨res, hres⟩ := ih (a + 1) b
            exact ⟨_, by rw [step_minus line rest a _ cs hm hd, hres]; rfl⟩
          · by_cases hc3 : c = '+'
            · subst hc3
              obtain ⟨res, hres⟩ := ih a (b + 1)
              exact ⟨_, by rw [step_plus line rest _ b cs hm hd, hres]; rfl⟩
            · obtain ⟨res, hres⟩ := ih a b
              exact ⟨res, by rw [step_skip line rest _ _ c cs hm hd hc hc2 hc3, hres]⟩

/-- C7 amended: lines that are neither a hunk header nor prefixed with
space, minus or plus are silently dropped (emitting nothing), and the
parse returns without raising on every input in which no content line
precedes the first hunk header; a content line before any header,
however, raises (see the counterexample). -/
theorem c7_amended_drop_and_totality :
    (∀ (line : String) (lines : List String) (oL nL : Option Nat),
      matchHunkHeaderL line.data = none → isContentLine line = false →
      parseDiffLines (line :: lines) oL nL = parseDiffLines lines oL nL) ∧
    (∀ s : String, noContentBeforeHeader (splitlines s) = true →
      ∃ res, parse_diff_block s = some res) := by
  constructor
  · intro line lines oL nL hm hic
    cases hd : line.data with
    | nil => exact step_empty line lines oL nL hm hd
    | cons c cs =>
      rw [isContentLine, hd] at hic
      simp only [Bool.or_eq_false_iff, beq_eq_false_iff_ne] at hic
      exact step_skip line lines oL nL c cs hm hd hic.1.1 hic.1.2 hic.2
  · intro s
    rw [parse_diff_block]
    generalize splitlines s = lines
    induction lines with
    | nil => intro _; exact ⟨[], rfl⟩
    | cons line rest ih =>
      intro h
      rw [noContentBeforeHeader] at h
      cases hm : matchHunkHeaderL line.data with
      | some ab =>
        obtain ⟨res, hres⟩ := parse_total_after_header rest ab.1 ab.2
        exact ⟨res, by rw [step_header line rest _ _ ab.1 ab.2 (by simpa using hm), hres]⟩
      | none =>
        rw [hm] at h
        simp only [Option.isSome_none, Bool.false_eq_true, if_false] at h
        by_cases hic : isContentLine line
        · rw [if_pos hic] at h; cases h
        · rw [if_neg hic] at h
          obtain ⟨res, hres⟩ := ih h
          refine ⟨res, ?_⟩
          cases hd : line.data with
          | nil => rw [step_empty line rest _ _ hm hd, hres]
          | cons c cs =>
            rw [isContentLine, hd] at hic
            simp only [Bool.or_eq_true, beq_iff_eq, not_or] at hic
            rw [step_skip line rest _ _ c cs hm hd hic.1.1 hic.1.2 hic.2, hres]

/-- Witness for the amended C7: a junk line is dropped, and a block
whose content lines all follow a header parses successfully. -/
theorem c7_amended_drop_and_totality_witness :
    (parseDiffLines ["junk", " x"] (some 1) (some 1) =
      parseDiffLines [" x"] (some 1) (some 1)) ∧
    ∃ res, parse_diff_block "junk\n@@ -1,2 +1,3 @@\n x" = some res :=
  ⟨c7_amended_drop_and_totality.1 "junk" [" x"] (some 1) (some 1) (by decide) (by decide),
   c7_amended_drop_and_totality.2 "junk\n@@ -1,2 +1,3 @@\n x" (by decide)⟩

/-- Token cost of a whole chunk's rendered summary. -/
def chunkCost (tok : String → Nat) (chunk : List Diff) : Nat :=
  tok (summarize_diffs_multiline chunk)

/-- Token cost of the full message text sent for a chunk. -/
def msgCost (tok : String → Nat) (bm : List Message) (chunk : List Diff) : Nat :=
  tok (joinNL ((bm ++ [(⟨"user", summarize_diffs_multiline chunk⟩ : Message)]).map Message.content))

/-- The per-chunk loop of `get_review` adds the message-text cost of
each chunk to the total counter and the summary cost to the diff
counter, and never touches the static counter. -/
lemma foldl_reviewStep_stats (tok : String → Nat) (send : List Message → String)
    (bm : List Message) :
    ∀ (chunks : List (List Diff)) (acc : TokenStats × List String),
      ((chunks.foldl (reviewStep tok send bm) acc).1.total_tokens =
        acc.1.total_tokens + (chunks.map (msgCost tok bm)).sum) ∧
      ((chunks.foldl (reviewStep tok send bm) acc).1.static_tokens = acc.1.static_tokens) ∧
      ((chunks.foldl (reviewStep tok send bm) acc).1.diff_tokens =
        acc.1.diff_tokens + (chunks.map (chunkCost tok)).sum) := by
  intro chunks
  induction chunks with
  | nil => intro acc; simp
  | cons c cs ih =>
    intro acc
    simp only [List.foldl_cons, List.map_cons, List.sum_cons]
    obtain ⟨h1, h2, h3⟩ := ih (reviewStep tok send bm acc c)
    refine ⟨?_, ?_, ?_⟩
    · rw [h1]; simp [reviewStep, msgCost]; omega
    · rw [h2]; simp [reviewStep]
    · rw [h3]; simp [reviewStep, chunkCost]; omega

/-- The splitting loop returns at least one chunk whenever it is given
at least one diff (or a non-empty current chunk). -/
lemma splitGo_ne_nil (cost : Diff → Nat) (maxT : Int) (base : Nat) :
    ∀ (ds cur : List Diff) (t : Nat), ds ≠ [] ∨ cur ≠ [] →
      splitGo cost maxT base ds cur t ≠ [] := by
  intro ds
  induction ds with
  | nil =>
    intro cur t h
    rcases h with h | h
    · exact absurd rfl h
    · simp [splitGo, h]
  | cons d ds ih =>
    intro cur t _
    by_cases hgt : (t : Int) + cost d > maxT
    · simp [splitGo, hgt]
    · simp only [splitGo, hgt, if_false, reduceIte]
      exact ih (cur ++ [d]) _ (Or.inr (by simp))

/-- With a tokenizer that is superadditive across newline joins, the
cost of a chunk's full message text dominates the prompt cost plus the
summary cost. -/
lemma msgCost_ge (tok : String → Nat)
    (hsup : ∀ a b, tok a + tok b ≤ tok (a ++ "\n" ++ b))
    (r : Reviewer) (td : String) (chunk : List Diff) :
    tok r.prompt_message + chunkCost tok chunk ≤ msgCost tok (baseMessages r td) chunk := by
  by_cases h : td ≠ ""
  · have e : (baseMessages r td ++
          [(⟨"user", summarize_diffs_multiline chunk⟩ : Message)]).map Message.content
        = [r.prompt_message, "Task Details: " ++ td, summarize_diffs_multiline chunk] := by
      simp [baseMessages, h]
    rw [msgCost, e]
    calc tok r.prompt_message + chunkCost tok chunk
        ≤ tok r.prompt_message +
            (tok ("Task Details: " ++ td) + tok (summarize_diffs_multiline chunk)) := by
          rw [chunkCost]; omega
      _ ≤ tok r.prompt_message +
            tok ("Task Details: " ++ td ++ "\n" ++ summarize_diffs_multiline chunk) := by
          have := hsup ("Task Details: " ++ td) (summarize_diffs_multiline chunk)
          omega
      _ ≤ tok (r.prompt_message ++ "\n" ++
            ("Task Details: " ++ td ++ "\n" ++ summarize_diffs_multiline chunk)) :=
          hsup _ _
      _ = tok (joinNL [r.prompt_message, "Task Details: " ++ td,
            summarize_diffs_multiline chunk]) := by
          simp [joinNL, String.append_assoc]
  · have e : (baseMessages r td ++
          [(⟨"user", summarize_diffs_multiline chunk⟩ : Message)]).map Message.content
        = [r.prompt_message, summarize_diffs_multiline chunk] := by
      simp [baseMessages, h]
    rw [msgCost, e]
    calc tok r.prompt_message + chunkCost tok chunk
        ≤ tok (r.prompt_message ++ "\n" ++ summarize_diffs_multiline chunk) := hsup _ _
      _ = tok (joinNL [r.prompt_message, summarize_diffs_multiline chunk]) := rfl

/-- Summing the per-chunk bound over a non-empty chunk list. -/
lemma msg_sum_ge (tok : String → Nat)
    (hsup : ∀ a b, tok a + tok b ≤ tok (a ++ "\n" ++ b))
    (r : Reviewer) (td : String) :
    ∀ chunks : List (List Diff), chunks ≠ [] →
      tok r.prompt_message + (chunks.map (chunkCost tok)).sum ≤
        (chunks.map (msgCost tok (baseMessages r td))).sum := by
  intro chunks
  induction chunks with
  | nil => intro h; exact absurd rfl h
  | cons c cs ih =>
    intro _
    simp only [List.map_cons, List.sum_cons]
    rcases eq_or_ne cs [] with rfl | hne
    · simpa using msgCost_ge tok hsup r td c
    · have h1 := msgCost_ge tok hsup r td c
      have h2 := ih hne
      omega

/-- Effect of one `get_review` call on a reviewer's statistics: the
static counter and all non-statistics fields are unchanged, and on a
non-empty diffs list (with a newline-superadditive tokenizer) the total
counter grows by at least the prompt cost more than the diff counter. -/
lemma get_review_stats (tok : String → Nat) (send : List Message → String)
    (r : Reviewer) (diffs : List Diff) (td : String) :
    ((get_review tok send r diffs td).1.token_stats.static_tokens =
        r.token_stats.static_tokens) ∧
    ((get_review tok send r diffs td).1.prompt_message = r.prompt_message) ∧
    ((∀ a b, tok a + tok b ≤ tok (a ++ "\n" ++ b)) → diffs ≠ [] →
      (get_review tok send r diffs td).1.token_stats.total_tokens +
          r.token_stats.diff_tokens ≥
        r.token_stats.total_tokens +
          (get_review tok send r diffs td).1.token_stats.diff_tokens +
          tok r.prompt_message) := by
  have key := foldl_reviewStep_stats tok send (baseMessages r td)
    (split_into_chunks tok r.max_tokens_per_chunk (baseMessages r td) diffs)
    (r.token_stats, [])
  refine ⟨key.2.1, rfl, fun hsup hne => ?_⟩
  have hchunks : split_into_chunks tok r.max_tokens_per_chunk (baseMessages r td) diffs ≠ [] :=
    splitGo_ne_nil (diffCost tok) r.max_tokens_per_chunk _ diffs [] _ (Or.inl hne)
  have hsum := msg_sum_ge tok hsup r td
    (split_into_chunks tok r.max_tokens_per_chunk (baseMessages r td) diffs) hchunks
  have h1 := key.1
  have h3 := key.2.2
  dsimp only at h1 h3
  show (get_review tok send r diffs td).1.token_stats.total_tokens + _ ≥ _
  rw [show (get_review tok send r diffs td).1.token_stats =
      ((split_into_chunks tok r.max_tokens_per_chunk (baseMessages r td) diffs).foldl
        (reviewStep tok send (baseMessages r td)) (r.token_stats, [])).1 from rfl]
  omega

/-- Iterating `get_review` preserves the prompt and the static counter,
and once at least one call with a non-empty diffs list has happened the
total counter exceeds the diff counter by at least the prompt cost. -/
lemma runCalls_stats (tok : String → Nat) (send : List Message → String)
    (hsup : ∀ a b, tok a + tok b ≤ tok (a ++ "\n" ++ b)) :
    ∀ (calls : List (List Diff × String)) (r : Reviewer),
      (∀ c ∈ calls, c.1 ≠ []) →
      ((runCalls tok send r calls).prompt_message = r.prompt_message ∧
       (runCalls tok send r calls).token_stats.static_tokens =
         r.token_stats.static_tokens) ∧
      (calls ≠ [] →
        (runCalls tok send r calls).token_stats.total_tokens +
            r.token_stats.diff_tokens ≥
          r.token_stats.total_tokens +
            (runCalls tok send r calls).token_stats.diff_tokens +
            tok r.prompt_message) := by
  intro calls
  induction calls with
  | nil => intro r _; exact ⟨⟨rfl, rfl⟩, fun h => absurd rfl h⟩
  | cons c cs ih =>
    intro r hall
    have hc1 : c.1 ≠ [] := hall c (by simp)
    have hcs : ∀ x ∈ cs, x.1 ≠ [] := fun x hx => hall x (by simp [hx])
    have hg := get_review_stats tok send r c.1 c.2
    have hglast := hg.2.2 hsup hc1
    have hr : runCalls tok send r (c :: cs) =
        runCalls tok send ((get_review tok send r c.1 c.2).1) cs := rfl
    obtain ⟨⟨hpm, hst⟩, hineq⟩ := ih ((get_review tok send r c.1 c.2).1) hcs
    rw [hr]
    refine ⟨⟨by rw [hpm, hg.2.1], by rw [hst, hg.1]⟩, fun _ => ?_⟩
    rcases eq_or_ne cs [] with rfl | hne
    · simpa [runCalls] using hglast
    · have h2 := hineq hne
      rw [hg.2.1] at h2
      omega

/-- C4 counterexample: on the empty diffs list no chunk is processed,
so the total and diff counters stay zero while the static counter holds
the (positive) prompt cost, violating the claimed inequality.  The
tokenizer instance is the constant-one counter. -/
theorem c4_counterexample :
    ¬ ((get_review (fun _ => 1) (fun _ => "")
          (chatgpt_reviewer_init (fun _ => 1) "" 100) [] "").1.token_stats.total_tokens ≥
       (get_review (fun _ => 1) (fun _ => "")
          (chatgpt_reviewer_init (fun _ => 1) "" 100) [] "").1.token_stats.diff_tokens +
       (get_review (fun _ => 1) (fun _ => "")
          (chatgpt_reviewer_init (fun _ => 1) "" 100) [] "").1.token_stats.static_tokens) := by
  decide

/-- C4 amended: the static counter is fixed at construction and
unchanged by every `get_review` call; and after any non-empty sequence
of calls on non-empty diffs lists (the tokenizer being superadditive
across newline joins, as a byte-pair counter over a join is at least
the sum of the parts' counts), the totals satisfy
total >= diff + static.  The original claim fails on empty diffs lists
(see the counterexample). -/
theorem c4_amended_token_stats :
    (∀ (tok : String → Nat) (send : List Message → String) (r : Reviewer)
        (diffs : List Diff) (td : String),
      (get_review tok send r diffs td).1.token_stats.static_tokens =
        r.token_stats.static_tokens) ∧
    (∀ (tok : String → Nat) (send : List Message → String) (prompt_base : String)
        (limit : Nat) (calls : List (List Diff × String)),
      (∀ a b, tok a + tok b ≤ tok (a ++ "\n" ++ b)) →
      calls ≠ [] →
      (∀ c ∈ calls, c.1 ≠ []) →
      (runCalls tok send (chatgpt_reviewer_init tok prompt_base limit)
          calls).token_stats.total_tokens ≥
        (runCalls tok send (chatgpt_reviewer_init tok prompt_base limit)
            calls).token_stats.diff_tokens +
          (runCalls tok send (chatgpt_reviewer_init tok prompt_base limit)
              calls).token_stats.static_tokens) := by
  constructor
  · intro tok send r diffs td
    exact (get_review_stats tok send r diffs td).1
  · intro tok send prompt_base limit calls hsup hne hall
    obtain ⟨⟨hpm, hst⟩, hineq⟩ := runCalls_stats tok send hsup calls
      (chatgpt_reviewer_init tok prompt_base limit) hall
    have h2 := hineq hne
    have hinit_static :
        (chatgpt_reviewer_init tok prompt_base limit).token_stats.static_tokens =
          tok (chatgpt_reviewer_init tok prompt_base limit).prompt_message := rfl
    have hinit_total :
        (chatgpt_reviewer_init tok prompt_base limit).token_stats.total_tokens = 0 := rfl
    have hinit_diff :
        (chatgpt_reviewer_init tok prompt_base limit).token_stats.diff_tokens = 0 := rfl
    rw [hst, hinit_static]
    omega

/-- Witness for the amended C4 with the character-count tokenizer and
one call on one diff. -/
theorem c4_amended_token_stats_witness :
    (runCalls String.length (fun _ => "")
        (chatgpt_reviewer_init String.length "" 1000)
        [([⟨"", "a", []⟩], "")]).token_stats.total_tokens ≥
      (runCalls String.length (fun _ => "")
          (chatgpt_reviewer_init String.length "" 1000)
          [([⟨"", "a", []⟩], "")]).token_stats.diff_tokens +
        (runCalls String.length (fun _ => "")
            (chatgpt_reviewer_init String.length "" 1000)
            [([⟨"", "a", []⟩], "")]).token_stats.static_tokens :=
  c4_amended_token_stats.2 String.length (fun _ => "") "" 1000 [([⟨"", "a", []⟩], "")]
    (fun a b => by simp [String.length_append])
    (by simp)
    (by intro c hc; simp only [List.mem_singleton] at hc; subst hc; simp)

/-- Stripping the fence markers from a wrapped response leaves the
wrapped content followed by the newline that preceded the closing
fence. -/
lemma strip_fences_wrap (s : String) :
    strip_fences ("```json\n" ++ s ++ "\n```") = s ++ "\n" := by
  obtain ⟨l⟩ := s
  have hd : ("```json\n" ++ String.mk l ++ "\n```").data =
      "```json\n".data ++ (l ++ "\n```".data) := by
    show ("```json\n".data ++ l) ++ "\n```".data = _
    rw [List.append_assoc]
  have hpre : "```json".data.isPrefixOf ("```json\n".data ++ (l ++ "\n```".data)) = true := rfl
  have hdrop : ("```json\n".data ++ (l ++ "\n```".data)).drop 8 = l ++ "\n```".data := by
    have h8 : 8 = "```json\n".data.length := rfl
    rw [h8, List.drop_left]
  have hq : l ++ "\n```".data = (l ++ ['\n']) ++ "```".data := by
    rw [List.append_assoc]; rfl
  have hsuf : "```".data.isSuffixOf (l ++ "\n```".data) = true := by
    show List.isPrefixOf _ _ = true
    rw [List.reverse_append]
    rfl
  have hlen : (l ++ "\n```".data).length - 3 = (l ++ ['\n']).length := by
    simp
  have htake : (l ++ "\n```".data).take ((l ++ "\n```".data).length - 3) = l ++ ['\n'] := by
    rw [hlen, hq, List.take_left]
  show (if "```".data.isSuffixOf
      (if "```json".data.isPrefixOf ("```json\n" ++ String.mk l ++ "\n```").data then
        String.mk (("```json\n" ++ String.mk l ++ "\n```").data.drop 8)
      else ("```json\n" ++ String.mk l ++ "\n```")).data = true then _ else _) = _
  rw [hd, hpre]
  simp only [if_true]
  rw [hdrop, htake, hsuf]
  simp only [if_true]
  rfl

/-- C8: for every raw response string, wrapping it in the fenced code
block markers and running it through the strip-and-parse step of
`post_review_comments` parses exactly as the unwrapped string does,
for any parser (such as Python's `json.loads`) that ignores a trailing
newline. -/
theorem c8_fenced_wrap_parse (jparse : String → Option Json) (s : String)
    (hws : ∀ t, jparse (t ++ "\n") = jparse t) :
    jparse (strip_fences ("```json\n" ++ s ++ "\n```")) = jparse s := by
  rw [strip_fences_wrap, hws]

/-- A response string with all trailing newlines removed. -/
def dropTrailingNewlines (t : String) : String :=
  String.mk ((t.data.reverse.dropWhile (fun c => c = '\n')).reverse)

/-- A tiny newline-tolerant parser recognizing the empty JSON array,
used to witness the parser hypothesis of the fenced-wrap theorem. -/
def emptyArrayParse (t : String) : Option Json :=
  if dropTrailingNewlines t = "[]" then some (Json.arr []) else none

/-- The tiny parser ignores one trailing newline. -/
lemma emptyArrayParse_ws (t : String) : emptyArrayParse (t ++ "\n") = emptyArrayParse t := by
  obtain ⟨l⟩ := t
  have hr : (String.mk l ++ "\n").data.reverse = '\n' :: l.reverse := by
    show (l ++ ['\n']).reverse = _
    rw [List.reverse_append]
    rfl
  rw [emptyArrayParse, emptyArrayParse, dropTrailingNewlines, dropTrailingNewlines, hr]
  rfl

/-- Witness for C8 at a concrete wrapped empty-array response. -/
theorem c8_fenced_wrap_parse_witness :
    emptyArrayParse (strip_fences ("```json\n" ++ "[]" ++ "\n```")) = emptyArrayParse "[]" :=
  c8_fenced_wrap_parse emptyArrayParse "[]" emptyArrayParse_ws

/-- Processing the elements of one decoded part never raises when every
element is a JSON object: the validated comments are all posted (in
order) and the per-element error entries are appended, independently of
any posting failures. -/
lemma processElems_spec (postFn : ReviewComment → Option String) (part : Nat) :
    ∀ (elems : List Json) (st : PostState),
      (∀ j ∈ elems, ∃ fs, j = Json.obj fs) →
      processElems postFn part st elems =
        some ⟨st.error_details ++ elemErrors postFn part elems,
              st.attempts ++ elems.filterMap validateComment⟩ := by
  intro elems
  induction elems with
  | nil => intro st _; simp [processElems, elemErrors]
  | cons j js ih =>
    intro st hobj
    obtain ⟨fs, hj⟩ := hobj j (by simp)
    have hrest : ∀ x ∈ js, ∃ gs, x = Json.obj gs := fun x hx => hobj x (by simp [hx])
    subst hj
    rw [processElems]
    cases hv : validateComment (Json.obj fs) with
    | none =>
      simp only [processElem, hv]
      rw [ih _ hrest]
      simp [elemErrors, hv, List.filterMap_cons]
    | some c =>
      cases hp : postFn c with
      | none =>
        simp only [processElem, hv, hp]
        rw [ih _ hrest]
        simp [elemErrors, hv, hp, List.filterMap_cons]
      | some e =>
        simp only [processElem, hv, hp]
        rw [ih _ hrest]
        simp [elemErrors, hv, hp, List.filterMap_cons]

/-- Each element that fails shape validation contributes exactly one
invalid-comment entry to the part's error records. -/
lemma elemErrors_count (postFn : ReviewComment → Option String) (part : Nat) :
    ∀ elems : List Json,
      (elemErrors postFn part elems).countP (fun e => e == ErrEntry.invalidComment part) =
        elems.countP (fun j => validateComment j == none) := by
  intro elems
  induction elems with
  | nil => rfl
  | cons j js ih =>
    rw [elemErrors, List.countP_append, List.countP_cons, ih]
    cases hv : validateComment j with
    | none => simp [hv]; omega
    | some c =>
      cases hp : postFn c with
      | none => simp [hv, hp]
      | some e => simp [hv, hp]

/-- C5: a response part that is malformed JSON makes the posting step
return the fatal invalid-JSON error immediately, with no further
processing; an individual comment object failing shape validation is
merely recorded and skipped while its valid siblings in the same part
are still all posted. -/
theorem c5_fatal_json_tolerant_validation :
    (∀ (jparse : String → Option Json) (postFn : ReviewComment → Option String)
        (raw : String) (rest : List String) (part : Nat) (st : PostState),
      jparse (strip_fences raw) = none →
      postGo jparse postFn (raw :: rest) part st = some (st, PostResult.invalidJson)) ∧
    (∀ (postFn : ReviewComment → Option String) (part : Nat) (st : PostState)
        (elems : List Json),
      (∀ j ∈ elems, ∃ fs, j = Json.obj fs) →
      processElems postFn part st elems =
        some ⟨st.error_details ++ elemErrors postFn part elems,
              st.attempts ++ elems.filterMap validateComment⟩ ∧
      (elemErrors postFn part elems).countP (fun e => e == ErrEntry.invalidComment part) =
        elems.countP (fun j => validateComment j == none)) := by
  constructor
  · intro jparse postFn raw rest part st h
    rw [postGo, h]
  · intro postFn part st elems hobj
    exact ⟨processElems_spec postFn part elems st hobj, elemErrors_count postFn part elems⟩

/-- A well-shaped comment object of the demo responses. -/
def demoValidObj : Json :=
  Json.obj [("Comment", Json.str "fix"), ("StartLine", Json.num 1),
            ("EndLine", Json.num 1), ("Type", Json.str "new"), ("Path", Json.str "a.py")]

/-- The comment obtained by validating the demo object. -/
def demoValid : ReviewComment := ⟨"fix", some "a.py", 1, 1, "new"⟩

/-- A comment object missing its required fields. -/
def demoBadObj : Json := Json.obj [("Comment", Json.str "x")]

/-- Witness for C5: a part failing to parse returns the fatal result
with untouched state, and a part holding one valid and one invalid
object posts the valid comment while recording one invalid-comment
entry. -/
theorem c5_fatal_json_tolerant_validation_witness :
    (postGo (fun _ => none) (fun _ => none) ["garbage"] 1 ⟨[], []⟩ =
      some (⟨[], []⟩, PostResult.invalidJson)) ∧
    (processElems (fun _ => none) 1 ⟨[], []⟩ [demoValidObj, demoBadObj] =
        some ⟨[] ++ elemErrors (fun _ => none) 1 [demoValidObj, demoBadObj],
              [] ++ [demoValidObj, demoBadObj].filterMap validateComment⟩ ∧
      (elemErrors (fun _ => none) 1 [demoValidObj, demoBadObj]).countP
          (fun e => e == ErrEntry.invalidComment 1) =
        [demoValidObj, demoBadObj].countP (fun j => validateComment j == none)) :=
  ⟨c5_fatal_json_tolerant_validation.1 (fun _ => none) (fun _ => none) "garbage" [] 1 ⟨[], []⟩ rfl,
   c5_fatal_json_tolerant_validation.2 (fun _ => none) 1 ⟨[], []⟩ [demoValidObj, demoBadObj]
     (by
       intro j hj
       rcases List.mem_cons.1 hj with rfl | hj
       · exact ⟨_, rfl⟩
       · rcases List.mem_cons.1 hj with rfl | hj
         · exact ⟨_, rfl⟩
         · simp at hj)⟩

/-- Characterization of the full posting loop when every part parses to
an array of objects: the attempted posts are all validated comments of
all parts, the error details accumulate part by part, and the return
value is `ok` exactly when no error was recorded. -/
lemma postGo_spec (jparse : String → Option Json) (postFn : ReviewComment → Option String) :
    ∀ {parts : List String} {partsJson : List (List Json)},
      List.Forall₂ (fun raw elems =>
        jparse (strip_fences raw) = some (Json.arr elems) ∧
        ∀ j ∈ elems, ∃ fs, j = Json.obj fs) parts partsJson →
      ∀ (p : Nat) (st : PostState),
      postGo jparse postFn parts p st =
        some (⟨st.error_details ++ partsErrors postFn p partsJson,
               st.attempts ++ partAttempts partsJson⟩,
          if st.error_details ++ partsErrors postFn p partsJson = [] then PostResult.ok
          else PostResult.failed (st.error_details ++ partsErrors postFn p partsJson)) := by
  intro parts partsJson h
  induction h with
  | nil => intro p st; simp [postGo, partsErrors, partAttempts]
  | @cons raw elems rawRest elemsRest hre _ ih =>
    intro p st
    rw [postGo, hre.1]
    show (match processElems postFn p st elems with
          | none => none
          | some st' => postGo jparse postFn rawRest (p + 1) st') = _
    rw [processElems_spec postFn p elems st hre.2]
    dsimp only
    rw [ih]
    simp [partsErrors, partAttempts, List.append_assoc]

/-- A remote rejection of a validated comment of one part is recorded
as a structured failure entry of that part. -/
lemma elemErrors_postFailed_mem (postFn : ReviewComment → Option String) (part : Nat) :
    ∀ (elems : List Json) (c : ReviewComment) (e : String),
      c ∈ elems.filterMap validateComment → postFn c = some e →
      ErrEntry.postFailed part c e ∈ elemErrors postFn part elems := by
  intro elems
  induction elems with
  | nil => intro c e hc _; simp at hc
  | cons j js ih =>
    intro c e hc hp
    rw [List.filterMap_cons] at hc
    cases hv : validateComment j with
    | none =>
      rw [hv] at hc
      simp only [elemErrors, hv]
      exact List.mem_append_right _ (ih c e hc hp)
    | some c' =>
      rw [hv] at hc
      rcases List.mem_cons.1 hc with rfl | hc'
      · simp [elemErrors, hv, hp]
      · cases hp' : postFn c' <;>
          · simp only [elemErrors, hv, hp']
            exact List.mem_append_right _ (ih c e hc' hp)

/-- Lifting the previous lemma to the whole list of parts. -/
lemma partsErrors_postFailed_mem (postFn : ReviewComment → Option String) :
    ∀ (partsJson : List (List Json)) (p : Nat) (c : ReviewComment) (e : String),
      c ∈ partAttempts partsJson → postFn c = some e →
      ∃ q, ErrEntry.postFailed q c e ∈ partsErrors postFn p partsJson := by
  intro partsJson
  induction partsJson with
  | nil => intro p c e hc _; simp [partAttempts] at hc
  | cons elems rest ih =>
    intro p c e hc hp
    have hc' : c ∈ elems.filterMap validateComment ∨ c ∈ partAttempts rest := by
      simpa [partAttempts] using hc
    rcases hc' with hc' | hc'
    · exact ⟨p, by
        simp only [partsErrors]
        exact List.mem_append_left _ (elemErrors_postFailed_mem postFn p elems c e hc' hp)⟩
    · obtain ⟨q, hq⟩ := ih (p + 1) c e hc' hp
      exact ⟨q, by
        simp only [partsErrors]
        exact List.mem_append_right _ hq⟩

/-- When every element validates, a part contributes no error entries
exactly when all its validated comments post cleanly. -/
lemma elemErrors_nil_iff (postFn : ReviewComment → Option String) (part : Nat) :
    ∀ elems : List Json, (∀ j ∈ elems, validateComment j ≠ none) →
      (elemErrors postFn part elems = [] ↔
        ∀ c ∈ elems.filterMap validateComment, postFn c = none) := by
  intro elems
  induction elems with
  | nil => intro _; simp [elemErrors]
  | cons j js ih =>
    intro hval
    have hj := hval j (by simp)
    have hrest : ∀ x ∈ js, validateComment x ≠ none := fun x hx => hval x (by simp [hx])
    cases hv : validateComment j with
    | none => exact absurd hv hj
    | some c =>
      cases hp : postFn c with
      | none =>
        simp only [elemErrors, hv, hp, List.nil_append, List.filterMap_cons]
        rw [ih hrest]
        constructor
        · intro hall x hx
          rcases List.mem_cons.1 hx with rfl | hx
          · exact hp
          · exact hall x hx
        · intro hall x hx
          exact hall x (List.mem_cons_of_mem _ hx)
      | some e =>
        simp only [elemErrors, hv, hp, List.filterMap_cons]
        refine iff_of_false (by simp) ?_
        intro hall
        have := hall c (by simp)
        rw [hp] at this
        cases this

/-- Lifting the previous equivalence to the whole list of parts. -/
lemma partsErrors_nil_iff (postFn : ReviewComment → Option String) :
    ∀ (partsJson : List (List Json)) (p : Nat),
      (∀ j ∈ partsJson.flatten, validateComment j ≠ none) →
      (partsErrors postFn p partsJson = [] ↔
        ∀ c ∈ partAttempts partsJson, postFn c = none) := by
  intro partsJson
  induction partsJson with
  | nil => intro p _; simp [partsErrors, partAttempts]
  | cons elems rest ih =>
    intro p hval
    have h1 : ∀ j ∈ elems, validateComment j ≠ none := fun j hj =>
      hval j (by simp [hj])
    have h2 : ∀ j ∈ rest.flatten, validateComment j ≠ none := fun j hj =>
      hval j (by simp [hj])
    simp only [partsErrors, partAttempts, List.map_cons, List.flatten_cons,
      List.append_eq_nil]
    rw [elemErrors_nil_iff postFn p elems h1, ih (p + 1) h2]
    constructor
    · intro ⟨ha, hb⟩ c hc
      rcases List.mem_append.1 hc with hc | hc
      · exact ha c hc
      · exact hb c hc
    · intro hall
      exact ⟨fun c hc => hall c (List.mem_append_left _ hc),
             fun c hc => hall c (List.mem_append_right _ hc)⟩

/-- C9: when every part parses to an array of comment objects, a remote
rejection of a single validated comment is recorded as a structured
failure (part index, comment, error) and processing continues — the
attempted posts are all validated comments no matter how many
rejections occur; the function returns the clean `ok` (Python `None`)
exactly when no failure was recorded, and otherwise the aggregated
error summary; when additionally every object validates, the clean
return happens exactly when every comment posted cleanly. -/
theorem c9_posting_never_aborts
    (jparse : String → Option Json) (postFn : ReviewComment → Option String)
    (parts : List String) (partsJson : List (List Json))
    (h : List.Forall₂ (fun raw elems =>
        jparse (strip_fences raw) = some (Json.arr elems) ∧
        ∀ j ∈ elems, ∃ fs, j = Json.obj fs) parts partsJson) :
    (post_review_comments jparse postFn parts =
      some (⟨partsErrors postFn 1 partsJson, partAttempts partsJson⟩,
        if partsErrors postFn 1 partsJson = [] then PostResult.ok
        else PostResult.failed (partsErrors postFn 1 partsJson))) ∧
    (∀ (c : ReviewComment) (e : String), c ∈ partAttempts partsJson → postFn c = some e →
      ∃ q, ErrEntry.postFailed q c e ∈ partsErrors postFn 1 partsJson) ∧
    ((∀ j ∈ partsJson.flatten, validateComment j ≠ none) →
      (partsErrors postFn 1 partsJson = [] ↔
        ∀ c ∈ partAttempts partsJson, postFn c = none)) := by
  refine ⟨?_, fun c e => partsErrors_postFailed_mem postFn partsJson 1 c e,
    partsErrors_nil_iff postFn partsJson 1⟩
  have hspec := postGo_spec jparse postFn h 1 ⟨[], []⟩
  simpa [post_review_comments] using hspec

/-- The parser of the C9 witness: recognizes the demo response part. -/
def demoParse (t : String) : Option Json :=
  if t = "demo" then some (Json.arr [demoValidObj]) else none

/-- The posting collaborator of the C9 witness: rejects everything. -/
def demoRejectPost (_ : ReviewComment) : Option String := some "rejected"

/-- Witness for C9: one part with one valid comment whose posting is
rejected; the comment is attempted, the failure is recorded, and the
aggregated summary (not the fatal invalid-JSON result) is returned. -/
theorem c9_posting_never_aborts_witness :
    post_review_comments demoParse demoRejectPost ["demo"] =
      some (⟨partsErrors demoRejectPost 1 [[demoValidObj]], partAttempts [[demoValidObj]]⟩,
        if partsErrors demoRejectPost 1 [[demoValidObj]] = [] then PostResult.ok
        else PostResult.failed (partsErrors demoRejectPost 1 [[demoValidObj]])) :=
  (c9_posting_never_aborts demoParse demoRejectPost ["demo"] [[demoValidObj]]
    (List.Forall₂.cons
      ⟨rfl, by intro j hj; rw [List.mem_singleton] at hj; exact ⟨_, hj⟩⟩
      List.Forall₂.nil)).1

end GitlabReviewer
